import Mathlib

/-!
# Verification of the fhir-graph-predict event pipeline

A shallow embedding of the four Python scripts of the repository:

* `scripts/event_generation/fhir_to_eventstream.py` — coding extraction,
  observation value resolution, timestamp resolution, event assembly,
  demographics extraction, age calculation;
* `scripts/embedding_generation/calculate_age_distribution.py` — age
  calculation and the binned age-distribution report;
* `scripts/embedding_generation/extract_unique_codes.py` — the code-catalog
  builder (usage table with provenance);
* `scripts/embedding_generation/generate_code_embeddings.py` — the embedding
  script's code collector.

Python strings are modelled as lists of characters (`Str`), dicts with a known
field set as structures with `Option` fields (`none` = key absent), arbitrary
JSON values as the inductive `JVal`, and the third-party date library
(`dateutil.parser.parse`) as an ISO-8601 parser.  All definitions are
executable and structurally recursive so that concrete runs evaluate inside
the kernel.
-/

namespace Fhir

/-- Python strings, modelled as lists of characters (Unicode code points). -/
abbrev Str := List Char

/-- Python string comparison `a <= b`: lexicographic on code points. -/
def charListLe : Str → Str → Bool
  | [], _ => true
  | _ :: _, [] => false
  | a :: as, b :: bs => if a < b then true else if a = b then charListLe as bs else false

/-- Python truthiness filter for an optional string: `None` and `""` are falsy. -/
def truthyStr : Option Str → Option Str
  | some s => if s = [] then none else some s
  | none => none

/-- Python `a or b` on optional strings (left operand wins when truthy). -/
def pyOrStr (a b : Option Str) : Option Str :=
  match truthyStr a with
  | some s => some s
  | none => b

theorem charListLe_refl (a : Str) : charListLe a a = true := by
  induction a with
  | nil => rfl
  | cons c cs ih => simp [charListLe, ih]

theorem charListLe_total (a b : Str) : charListLe a b || charListLe b a := by
  induction a generalizing b with
  | nil => simp [charListLe]
  | cons c cs ih =>
    cases b with
    | nil => simp [charListLe]
    | cons d ds =>
      rcases lt_trichotomy c d with h | h | h
      · simp [charListLe, h]
      · subst h
        simpa [charListLe, lt_irrefl] using ih ds
      · simp [charListLe, h, lt_asymm h, (ne_of_lt h).symm]

theorem charListLe_trans (a b c : Str) (hab : charListLe a b = true)
    (hbc : charListLe b c = true) : charListLe a c = true := by
  induction a generalizing b c with
  | nil => simp [charListLe]
  | cons x xs ih =>
    cases b with
    | nil => simp [charListLe] at hab
    | cons y ys =>
      cases c with
      | nil => simp [charListLe] at hbc
      | cons z zs =>
        simp only [charListLe] at hab hbc ⊢
        by_cases hxy : x < y
        · by_cases hyz : y < z
          · simp [lt_trans hxy hyz]
          · simp [hxy] at hab
            by_cases hyez : y = z
            · subst hyez; simp [hxy]
            · simp [hyz, hyez] at hbc
        · simp [hxy] at hab
          by_cases hxey : x = y
          · subst hxey
            by_cases hxz : x < z
            · simp [hxz]
            · by_cases hxez : x = z
              · subst hxez
                simp [hxy] at hab
                simp [hxz] at hbc ⊢
                exact ih _ _ hab hbc
              · simp [hxz, hxez] at hbc
          · simp [hxey] at hab

/-- Digit value of a character. -/
def digitVal (c : Char) : Nat := c.toNat - '0'.toNat

def digitsToNatGo : Str → Nat → Option Nat
  | [], acc => some acc
  | c :: cs, acc => if c.isDigit then digitsToNatGo cs (acc * 10 + digitVal c) else none

/-- Value of a non-empty all-digit string; `none` otherwise. -/
def digitsToNat? (cs : Str) : Option Nat :=
  if cs = [] then none else digitsToNatGo cs 0

/-- Models Python `int()` applied to a string: an optional sign followed by
digits; anything else raises `ValueError`, modelled as `none`. -/
def pyInt? : Str → Option Int
  | [] => none
  | c :: cs =>
    if c = '-' then (digitsToNat? cs).map (fun n => -(n : Int))
    else if c = '+' then (digitsToNat? cs).map (fun n => (n : Int))
    else (digitsToNat? (c :: cs)).map (fun n => (n : Int))

theorem digitsToNatGo_isSome (cs : Str) (h : ∀ c ∈ cs, c.isDigit) (acc : Nat) :
    (digitsToNatGo cs acc).isSome := by
  induction cs generalizing acc with
  | nil => simp [digitsToNatGo]
  | cons c cs ih =>
    have hc : c.isDigit := h c (List.mem_cons_self c cs)
    simp only [digitsToNatGo, hc, if_true]
    exact ih (fun d hd => h d (List.mem_cons_of_mem c hd)) _

theorem digitsToNat?_isSome (cs : Str) (hne : cs ≠ []) (h : ∀ c ∈ cs, c.isDigit) :
    (digitsToNat? cs).isSome := by
  simp only [digitsToNat?, hne, if_false]
  exact digitsToNatGo_isSome cs h 0

theorem pyInt?_of_digits (cs : Str) (hne : cs ≠ []) (h : ∀ c ∈ cs, c.isDigit) :
    pyInt? cs = (digitsToNat? cs).map (fun n => (n : Int)) := by
  cases cs with
  | nil => exact absurd rfl hne
  | cons c cs =>
    have hc : c.isDigit := h c (List.mem_cons_self c cs)
    have h1 : c ≠ '-' := by intro hcon; rw [hcon] at hc; simp [Char.isDigit] at hc
    have h2 : c ≠ '+' := by intro hcon; rw [hcon] at hc; simp [Char.isDigit] at hc
    simp [pyInt?, h1, h2]

/-- A calendar date (as produced by Python's `datetime.date`). -/
structure PyDate where
  year : Nat
  month : Nat
  day : Nat
  deriving DecidableEq, Repr

def isLeapYear (y : Nat) : Bool := (y % 4 = 0 && y % 100 ≠ 0) || (y % 400 = 0)

def daysInMonth (y m : Nat) : Nat :=
  if m = 2 then (if isLeapYear y then 29 else 28)
  else if m = 4 ∨ m = 6 ∨ m = 9 ∨ m = 11 then 30
  else 31

/-- Models the Python constructor `datetime.date(y, m, d)`: it raises
`ValueError` (here `none`) outside `1 ≤ y ≤ 9999`, `1 ≤ m ≤ 12`,
`1 ≤ d ≤` days in that month. -/
def mkDate? (y : Int) (m d : Nat) : Option PyDate :=
  if 1 ≤ y ∧ y ≤ 9999 ∧ 1 ≤ m ∧ m ≤ 12 ∧ 1 ≤ d ∧ d ≤ daysInMonth y.toNat m
  then some ⟨y.toNat, m, d⟩ else none

/-- A timezone-aware or naive datetime (as produced by `dateutil.parser.parse`
on an ISO-8601 string; sub-second precision is not modelled). -/
structure PyDateTime where
  year : Nat
  month : Nat
  day : Nat
  hour : Nat
  minute : Nat
  second : Nat
  tzOffsetMinutes : Option Int
  deriving DecidableEq, Repr

/-- Python `datetime.date()` on a datetime. -/
def PyDateTime.date (t : PyDateTime) : PyDate := ⟨t.year, t.month, t.day⟩

/-- Split a character list at every occurrence of `sep`
(Python `str.split(sep)`). -/
def splitOnChar (sep : Char) : Str → List Str
  | [] => [[]]
  | c :: cs =>
    if c = sep then [] :: splitOnChar sep cs
    else
      match splitOnChar sep cs with
      | [] => [[c]]
      | p :: ps => (c :: p) :: ps

theorem splitOnChar_ne_nil (sep : Char) (cs : Str) : splitOnChar sep cs ≠ [] := by
  cases cs with
  | nil => simp [splitOnChar]
  | cons c cs =>
    simp only [splitOnChar]
    split
    · simp
    · split <;> simp

theorem splitOnChar_of_not_mem {sep : Char} {cs : Str} (h : sep ∉ cs) :
    splitOnChar sep cs = [cs] := by
  induction cs with
  | nil => rfl
  | cons c cs ih =>
    have hc : c ≠ sep := fun hcon => h (hcon ▸ List.mem_cons_self c cs)
    have hrest : sep ∉ cs := fun hcon => h (List.mem_cons_of_mem c hcon)
    simp [splitOnChar, hc, ih hrest]

theorem splitOnChar_append {sep : Char} {a : Str} (h : sep ∉ a) (b : Str) :
    splitOnChar sep (a ++ sep :: b) = a :: splitOnChar sep b := by
  induction a with
  | nil => simp [splitOnChar]
  | cons c cs ih =>
    have hc : c ≠ sep := fun hcon => h (hcon ▸ List.mem_cons_self c cs)
    have hrest : sep ∉ cs := fun hcon => h (List.mem_cons_of_mem c hcon)
    simp only [List.cons_append, splitOnChar, hc, if_false]
    rw [show cs.append (sep :: b) = cs ++ sep :: b from rfl, ih hrest]

/-- Parse exactly `w` digits. -/
def fixedNat? (w : Nat) (cs : Str) : Option Nat :=
  if cs.length = w then digitsToNat? cs else none

/-- Parse `"HH:MM:SS"` or `"HH:MM"` into (hour, minute, second). -/
def parseTimeOfDay? (cs : Str) : Option (Nat × Nat × Nat) :=
  match splitOnChar ':' cs with
  | [hh, mm, ss] => do
    let h ← fixedNat? 2 hh
    let m ← fixedNat? 2 mm
    let s ← fixedNat? 2 ss
    if h ≤ 23 ∧ m ≤ 59 ∧ s ≤ 59 then some (h, m, s) else none
  | [hh, mm] => do
    let h ← fixedNat? 2 hh
    let m ← fixedNat? 2 mm
    if h ≤ 23 ∧ m ≤ 59 then some (h, m, 0) else none
  | _ => none

/-- Parse a timezone-offset magnitude `"HH:MM"` into minutes. -/
def parseOffsetMag? (cs : Str) : Option Int :=
  match splitOnChar ':' cs with
  | [hh, mm] => do
    let h ← fixedNat? 2 hh
    let m ← fixedNat? 2 mm
    if h ≤ 23 ∧ m ≤ 59 then some ((h * 60 + m : Nat) : Int) else none
  | _ => none

/-- Parse the time-of-day part of an ISO timestamp, with an optional
trailing `Z` or `±HH:MM` offset. -/
def parseTimePart? (cs : Str) : Option (Nat × Nat × Nat × Option Int) :=
  if cs.getLast? = some 'Z' then
    (parseTimeOfDay? cs.dropLast).map (fun (h, m, s) => (h, m, s, some 0))
  else
    match splitOnChar '+' cs with
    | [t, off] => do
      let (h, m, s) ← parseTimeOfDay? t
      let o ← parseOffsetMag? off
      some (h, m, s, some o)
    | [t] =>
      (match splitOnChar '-' t with
       | [t', off] => do
         let (h, m, s) ← parseTimeOfDay? t'
         let o ← parseOffsetMag? off
         some (h, m, s, some (-o))
       | [t'] => (parseTimeOfDay? t').map (fun (h, m, s) => (h, m, s, none))
       | _ => none)
    | _ => none

/-- Parse `"YYYY-MM-DD"` (validating the ranges Python's `date` accepts). -/
def parseDatePart? (cs : Str) : Option (Nat × Nat × Nat) :=
  match splitOnChar '-' cs with
  | [y4, m2, d2] => do
    let y ← fixedNat? 4 y4
    let m ← fixedNat? 2 m2
    let d ← fixedNat? 2 d2
    match mkDate? (y : Int) m d with
    | some _ => some (y, m, d)
    | none => none
  | _ => none

/-- Models `dateutil.parser.parse`, restricted to ISO-8601 date and datetime
strings (`YYYY-MM-DD`, optionally `THH:MM[:SS]` with an optional `Z` or
`±HH:MM` offset).  Strings outside this shape are treated as unparseable
(the library's `ValueError`, modelled as `none`). -/
def parse_date? (cs : Str) : Option PyDateTime :=
  match splitOnChar 'T' cs with
  | [d] => (parseDatePart? d).map (fun (y, m, dd) => ⟨y, m, dd, 0, 0, 0, none⟩)
  | [d, t] => do
    let (y, m, dd) ← parseDatePart? d
    let (h, mi, s, off) ← parseTimePart? t
    some ⟨y, m, dd, h, mi, s, off⟩
  | _ => none

def natToCharsAux : Nat → Nat → Str → Str
  | 0, _, acc => acc
  | fuel + 1, n, acc =>
    if n < 10 then Nat.digitChar n :: acc
    else natToCharsAux fuel (n / 10) (Nat.digitChar (n % 10) :: acc)

/-- Decimal representation of a natural number. -/
def natToChars (n : Nat) : Str := natToCharsAux (n + 1) n []

/-- Left-pad with zeros to width `w` (Python `str.zfill`). -/
def padZero (w : Nat) (cs : Str) : Str := List.replicate (w - cs.length) '0' ++ cs

def pad2 (n : Nat) : Str := padZero 2 (natToChars n)

def pad4 (n : Nat) : Str := padZero 4 (natToChars n)

/-- Models `datetime.isoformat()` for whole-second datetimes: the date and
time, then `±HH:MM` when the datetime is timezone-aware. -/
def PyDateTime.isoformat (t : PyDateTime) : Str :=
  pad4 t.year ++ '-' :: pad2 t.month ++ '-' :: pad2 t.day ++
  'T' :: pad2 t.hour ++ ':' :: pad2 t.minute ++ ':' :: pad2 t.second ++
  (match t.tzOffsetMinutes with
   | none => []
   | some o => (if o < 0 then '-' else '+') :: (pad2 (o.natAbs / 60) ++ ':' :: pad2 (o.natAbs % 60)))

/-- Days since 1970-01-01 of a civil date (Hinnant's algorithm, using
truncating integer division exactly as in its reference form). -/
def daysFromCivil (y : Int) (m d : Nat) : Int :=
  let y' : Int := if m ≤ 2 then y - 1 else y
  let era : Int := (if 0 ≤ y' then y' else y' - 399) / 400
  let yoe : Int := y' - era * 400
  let mp : Int := ((m : Int) + 9) % 12
  let doy : Int := (153 * mp + 2) / 5 + (d : Int) - 1
  let doe : Int := yoe * 365 + yoe / 4 - yoe / 100 + doy
  era * 146097 + doe - 719468

/-- The point in time a timestamp denotes, in seconds since the epoch;
a naive timestamp (no offset) is read as UTC. -/
def PyDateTime.toInstant (t : PyDateTime) : Int :=
  daysFromCivil (t.year : Int) t.month t.day * 86400
    + t.hour * 3600 + t.minute * 60 + t.second
    - (t.tzOffsetMinutes.getD 0) * 60

/-! ## Coding model (`fhir_to_eventstream.py`)

A FHIR `Coding` dict as emitted by the pipeline always carries the three keys
`system`, `code`, `display` (`display` may be `null`).  An entry *inside* a
source CodeableConcept may be junk (falsy or not a dict) or a dict with any
subset of those keys present. -/

/-- A coding emitted by the pipeline: `{"system": ..., "code": ..., "display": ...}`. -/
structure Coding where
  system : Str
  code : Str
  display : Option Str
  deriving DecidableEq, Repr

/-- One element of a CodeableConcept's `coding` list: either junk (falsy or
not a dict — skipped by the extractor) or a dict with optional fields. -/
inductive CodingItem where
  | junk
  | item (system : Option Str) (code : Option Str) (display : Option Str)
  deriving DecidableEq, Repr

/-- A CodeableConcept dict: the `coding` key (when present, a list) and the
`text` key. -/
structure ConceptDict where
  coding : Option (List CodingItem) := none
  text : Option Str := none
  deriving DecidableEq, Repr

/-- The argument passed to the coding extractor: Python `None` (or any falsy
value), a non-dict value, or a dict. -/
inductive Concept where
  | absent
  | notDict
  | dict (d : ConceptDict)
  deriving DecidableEq, Repr

/-- Models Python `str.startswith`. -/
def pyStartswith (s pre : Str) : Bool := pre.isPrefixOf s

-- Coding-system constants of `fhir_to_eventstream.py` (`CODING_SYSTEMS`).
def SNOMED_URL : Str := "http://snomed.info/sct".toList
def LOINC_URL : Str := "http://loinc.org".toList
def RXNORM_URL : Str := "http://www.nlm.nih.gov/research/umls/rxnorm".toList
def CVX_URL : Str := "http://hl7.org/fhir/sid/cvx".toList
def CPT_URL : Str := "http://www.ama-assn.org/go/cpt".toList
def HCPCS_URL : Str := "https://bluebutton.cms.gov/resources/codesystem/hcpcs".toList
def INTERP_SYSTEM_URL : Str :=
  "http://terminology.hl7.org/CodeSystem/v3-ObservationInterpretation".toList
def CONDITION_CLINICAL_URL : Str :=
  "http://terminology.hl7.org/CodeSystem/condition-clinical".toList
def CONDITION_VER_STATUS_URL : Str :=
  "http://terminology.hl7.org/CodeSystem/condition-ver-status".toList
def US_CORE_RACE_URL : Str :=
  "http://hl7.org/fhir/us/core/StructureDefinition/us-core-race".toList
def US_CORE_ETHNICITY_URL : Str :=
  "http://hl7.org/fhir/us/core/StructureDefinition/us-core-ethnicity".toList

/-- `get_all_codings_from_concept`: keep every coding entry that is a dict with
both `system` and `code` keys and whose system starts with one of the target
prefixes; emit it with its own system, code and (optional) display. -/
def get_all_codings_from_concept (codeable_concept : Concept)
    (target_system_url_or_prefixes : List Str) : List Coding :=
  match codeable_concept with
  | .absent => []
  | .notDict => []
  | .dict d =>
    match d.coding with
    | none => []
    | some entries =>
      entries.filterMap (fun e =>
        match e with
        | .junk => none
        | .item sys? code? disp? =>
          match sys?, code? with
          | some s, some c =>
            if target_system_url_or_prefixes.any (fun t => pyStartswith s t)
            then some ⟨s, c, disp?⟩ else none
          | _, _ => none)

/-- The record of `get_value_from_observation`'s return dict. -/
structure ValueInfo where
  value_numeric : Option ℚ
  value_concept_codings : List Coding
  unit_code : Option Str
  unit_display : Option Str
  deriving DecidableEq, Repr

/-- A FHIR `valueQuantity` dict (`value`, `unit`, `code` keys, each optional). -/
structure Quantity where
  value : Option ℚ := none
  unit : Option Str := none
  code : Option Str := none
  deriving DecidableEq, Repr

/-- A FHIR `performedPeriod` dict (only its `start` is read). -/
structure PerformedPeriod where
  start : Option Str := none
  deriving DecidableEq, Repr

/-- A `valueCoding` dict inside a US-Core extension (only `code` and
`display` are read). -/
structure ValueCoding where
  code : Option Str := none
  display : Option Str := none
  deriving DecidableEq, Repr

/-- A nested extension entry (`ombCategory` etc.). -/
structure SubExtension where
  url : Option Str := none
  valueCoding : Option ValueCoding := none
  deriving DecidableEq, Repr

/-- A top-level Patient extension (US-Core race / ethnicity). -/
structure Extension where
  url : Option Str := none
  extension : List SubExtension := []
  deriving DecidableEq, Repr

/-- The fields of a FHIR resource dict that `fhir_to_eventstream.py` reads.
A `none` (or `Concept.absent`) field models a missing key; where the code
uses `.get` a key explicitly set to `null` behaves the same way. -/
structure Resource where
  resourceType : Option Str := none
  id : Option Str := none
  onsetDateTime : Option Str := none
  recordedDate : Option Str := none
  effectiveDateTime : Option Str := none
  issued : Option Str := none
  authoredOn : Option Str := none
  performedDateTime : Option Str := none
  performedPeriod : Option PerformedPeriod := none
  occurrenceDateTime : Option Str := none
  code : Concept := .absent
  clinicalStatus : Concept := .absent
  verificationStatus : Concept := .absent
  medicationCodeableConcept : Concept := .absent
  vaccineCode : Concept := .absent
  status : Option Str := none
  intent : Option Str := none
  valueQuantity : Option Quantity := none
  valueCodeableConcept : Option ConceptDict := none
  valueString : Option Str := none
  valueBoolean : Option Bool := none
  interpretation : Option (List ConceptDict) := none
  birthDate : Option Str := none
  gender : Option Str := none
  extension : List Extension := []
  deriving DecidableEq, Repr

/-- The first-raw-coding fallback of `get_value_from_observation`: taken when
the SNOMED/LOINC extraction is empty, the concept's `coding` value is truthy
(a non-empty list), and its first element is a truthy dict with a `code` key;
the system defaults to `"unknown_system"` when absent. -/
def firstRawFallback (vcc : ConceptDict) : List Coding :=
  match vcc.coding with
  | some (CodingItem.item sys? (some c) disp? :: _) =>
    [⟨sys?.getD "unknown_system".toList, c, disp?⟩]
  | _ => []

/-- The free-text fallback: one synthetic `text_value` coding when the
concept's `text` is truthy. -/
def textFallback (vcc : ConceptDict) : List Coding :=
  match truthyStr vcc.text with
  | some t => [⟨"text_value".toList, t, some t⟩]
  | none => []

/-- `get_value_from_observation`: the cascading value extraction
(quantity → coded concept with two fallbacks → string → boolean → empty). -/
def get_value_from_observation (observation_resource : Resource) : ValueInfo :=
  match observation_resource.valueQuantity with
  | some q => ⟨q.value, [], q.code, q.unit⟩
  | none =>
    match observation_resource.valueCodeableConcept with
    | some vcc =>
      let base := get_all_codings_from_concept (.dict vcc) [SNOMED_URL, LOINC_URL]
      let withFirst := if base = [] then base ++ firstRawFallback vcc else base
      let final := if withFirst = [] then withFirst ++ textFallback vcc else withFirst
      ⟨none, final, none, none⟩
    | none =>
      match observation_resource.valueString with
      | some s => ⟨none, [⟨"string_value".toList, s, some s⟩], none, none⟩
      | none =>
        match observation_resource.valueBoolean with
        | some b =>
          let bs : Str := if b then "True".toList else "False".toList
          ⟨none, [⟨"boolean_value".toList, bs, some bs⟩], none, none⟩
        | none => ⟨none, [], none, none⟩

/-- `get_interpretation_codings`: each interpretation concept independently
yields its standard-system codings, else its free text as a synthetic
`text_interpretation` coding; all results are concatenated in order. -/
def get_interpretation_codings (observation_resource : Resource) : List Coding :=
  match observation_resource.interpretation with
  | none => []
  | some concepts =>
    concepts.flatMap (fun concept =>
      let codings := get_all_codings_from_concept (.dict concept) [INTERP_SYSTEM_URL]
      if codings ≠ [] then codings
      else
        match truthyStr concept.text with
        | some t => [⟨"text_interpretation".toList, t, some t⟩]
        | none => [])


/-- The six target event resource types (`TARGET_EVENT_RESOURCES`). -/
def TARGET_EVENT_RESOURCES : List Str :=
  ["Condition".toList, "Observation".toList, "MedicationRequest".toList,
   "Procedure".toList, "Immunization".toList, "DiagnosticReport".toList]

/-- `get_event_timestamp`: pick the type-specific candidate timestamp string
(first truthy field wins), then parse it; an unparseable or falsy candidate
yields `none`.  The function is only invoked on resources whose
`resourceType` is one of the six target types. -/
def get_event_timestamp (resource : Resource) : Option PyDateTime :=
  let timestamp_str : Option Str :=
    match resource.resourceType with
    | none => none
    | some rt =>
      if rt = "Condition".toList then pyOrStr resource.onsetDateTime resource.recordedDate
      else if rt = "Observation".toList then pyOrStr resource.effectiveDateTime resource.issued
      else if rt = "MedicationRequest".toList then resource.authoredOn
      else if rt = "Procedure".toList then
        match truthyStr resource.performedDateTime with
        | some s => some s
        | none =>
          match resource.performedPeriod with
          | some pp => pp.start
          | none => resource.performedDateTime
      else if rt = "Immunization".toList then resource.occurrenceDateTime
      else if rt = "DiagnosticReport".toList then pyOrStr resource.effectiveDateTime resource.issued
      else none
  match truthyStr timestamp_str with
  | some s => parse_date? s
  | none => none

/-- The normalized event dict assembled per qualifying record
(`fhir_to_eventstream.py`, `extract_clinical_events`). -/
structure EventData where
  event_fhir_id : Option Str
  patient_fhir_id : Option Str
  resourceType : Str
  event_timestamp : Str
  year : Nat
  primary_codings : List Coding
  status_codings : List Coding
  intent_codings : List Coding
  interpretation_codings : List Coding
  value_numeric : Option ℚ
  value_concept_codings : List Coding
  unit_code : Option Str
  unit_display : Option Str
  deriving DecidableEq, Repr, Inhabited

/-- The one-element coding the assembler builds from a single-valued status
or intent string: `{"system": label, "code": v, "display": v}`. -/
def singletonCoding (system v : Str) : Coding := ⟨system, v, some v⟩

/-- The per-type population of the event dict.  The source guards each
`extend` with `if codings:`, which is equivalent to extending
unconditionally. -/
def buildEvent (patient_fhir_id : Option Str) (resource : Resource) (rt : Str)
    (dt : PyDateTime) : EventData :=
  let base : EventData :=
    { event_fhir_id := resource.id
      patient_fhir_id := patient_fhir_id
      resourceType := rt
      event_timestamp := dt.isoformat
      year := dt.year
      primary_codings := []
      status_codings := []
      intent_codings := []
      interpretation_codings := []
      value_numeric := none
      value_concept_codings := []
      unit_code := none
      unit_display := none }
  if rt = "Condition".toList then
    { base with
      primary_codings := get_all_codings_from_concept resource.code [SNOMED_URL]
      status_codings :=
        get_all_codings_from_concept resource.clinicalStatus [CONDITION_CLINICAL_URL]
          ++ get_all_codings_from_concept resource.verificationStatus [CONDITION_VER_STATUS_URL] }
  else if rt = "Observation".toList then
    let value_info := get_value_from_observation resource
    { base with
      primary_codings := get_all_codings_from_concept resource.code [LOINC_URL]
      interpretation_codings := get_interpretation_codings resource
      value_numeric := value_info.value_numeric
      value_concept_codings := value_info.value_concept_codings
      unit_code := value_info.unit_code
      unit_display := value_info.unit_display }
  else if rt = "MedicationRequest".toList then
    { base with
      primary_codings :=
        get_all_codings_from_concept resource.medicationCodeableConcept [RXNORM_URL]
      status_codings :=
        match truthyStr resource.status with
        | some s => [singletonCoding "medicationrequest-status".toList s]
        | none => []
      intent_codings :=
        match truthyStr resource.intent with
        | some s => [singletonCoding "medicationrequest-intent".toList s]
        | none => [] }
  else if rt = "Procedure".toList then
    { base with
      primary_codings :=
        get_all_codings_from_concept resource.code [SNOMED_URL, CPT_URL, HCPCS_URL]
      status_codings :=
        match truthyStr resource.status with
        | some s => [singletonCoding "procedure-status".toList s]
        | none => [] }
  else if rt = "Immunization".toList then
    { base with
      primary_codings := get_all_codings_from_concept resource.vaccineCode [CVX_URL]
      status_codings :=
        match truthyStr resource.status with
        | some s => [singletonCoding "immunization-status".toList s]
        | none => [] }
  else if rt = "DiagnosticReport".toList then
    { base with
      primary_codings := get_all_codings_from_concept resource.code [LOINC_URL]
      status_codings :=
        match truthyStr resource.status with
        | some s => [singletonCoding "diagnosticreport-status".toList s]
        | none => [] }
  else base

/-- The first `Patient` resource's id (the assembler's initial loop). -/
def firstPatientId (patient_bundle : List Resource) : Option Str :=
  match patient_bundle.find? (fun r => r.resourceType = some "Patient".toList) with
  | some r => r.id
  | none => none

/-- One iteration of the assembler's main loop: the event built from a
target-type resource whose timestamp resolves, `none` otherwise. -/
def eventOfResource (patient_fhir_id : Option Str) (resource : Resource) :
    Option EventData :=
  match resource.resourceType with
  | none => none
  | some rt =>
    if rt ∈ TARGET_EVENT_RESOURCES then
      match get_event_timestamp resource with
      | none => none
      | some dt => some (buildEvent patient_fhir_id resource rt dt)
    else none

/-- The key order used by `processed_events.sort(key=lambda x:
x['event_timestamp'])`: ascending by the ISO timestamp *string*. -/
def tsLe (a b : EventData) : Prop :=
  charListLe a.event_timestamp b.event_timestamp = true

instance : DecidableRel tsLe := fun a b => by unfold tsLe; infer_instance

instance : IsTotal EventData tsLe :=
  ⟨fun a b => by
    have h := charListLe_total a.event_timestamp b.event_timestamp
    rcases Bool.or_eq_true_iff.mp h with h' | h'
    · exact Or.inl h'
    · exact Or.inr h'⟩

instance : IsTrans EventData tsLe :=
  ⟨fun _ _ _ hab hbc => charListLe_trans _ _ _ hab hbc⟩

/-- `extract_clinical_events`: keep each target-type record whose timestamp
resolves, in traversal order, then sort ascending by the timestamp string.
Python's `list.sort` is stable, and a stable sort under a total preorder is
unique, so it is modelled by the stable `List.insertionSort`. -/
def extract_clinical_events (patient_bundle : List Resource) : List EventData :=
  List.insertionSort tsLe
    (patient_bundle.filterMap (eventOfResource (firstPatientId patient_bundle)))

/-- A race / ethnicity coding as the demographics extractor emits it:
only `code` and `display` (no system). -/
structure DemoCoding where
  code : Option Str
  display : Option Str
  deriving DecidableEq, Repr

/-- The demographics dict (`extract_patient_demographics`). -/
structure Demographics where
  fhir_patient_id : Option Str
  birthDate : Option Str
  gender : Option Str
  race_codings : List DemoCoding
  ethnicity_codings : List DemoCoding
  deriving DecidableEq, Repr

/-- The `ombCategory` codings of one US-Core extension. -/
def ombCodings (ext : Extension) : List DemoCoding :=
  ext.extension.filterMap (fun sub =>
    if sub.url = some "ombCategory".toList then
      match sub.valueCoding with
      | some vc => some ⟨vc.code, vc.display⟩
      | none => none
    else none)

/-- `extract_patient_demographics`: `None` when the bundle holds no Patient
resource; otherwise the demographics dict, with race / ethnicity codings
collected from the US-Core extensions (the `elif` makes the two URL tests
mutually exclusive). -/
def extract_patient_demographics (patient_bundle : List Resource) :
    Option Demographics :=
  match patient_bundle.find? (fun r => r.resourceType = some "Patient".toList) with
  | none => none
  | some p =>
    some
      { fhir_patient_id := p.id
        birthDate := p.birthDate
        gender := p.gender
        race_codings := p.extension.flatMap (fun ext =>
          if ext.url = some US_CORE_RACE_URL then ombCodings ext else [])
        ethnicity_codings := p.extension.flatMap (fun ext =>
          if ext.url = some US_CORE_RACE_URL then []
          else if ext.url = some US_CORE_ETHNICITY_URL then ombCodings ext
          else []) }

/-- The shared birth-date interpretation of `calculate_age` and
`calculate_age_at_event`: length 4 → `date(int(s), 1, 1)`; length 7 →
`date(year, month, 1)` from `year, month = map(int, s.split('-'))`
(a split into ≠ 2 parts raises, modelled as `none`); otherwise
`parse_date(s).date()`. -/
def birthDateOf? (birth_date_str : Str) : Option PyDate :=
  if birth_date_str.length = 4 then
    match pyInt? birth_date_str with
    | some y => mkDate? y 1 1
    | none => none
  else if birth_date_str.length = 7 then
    match splitOnChar '-' birth_date_str with
    | [ys, ms] =>
      match pyInt? ys, pyInt? ms with
      | some y, some m => if 0 ≤ m then mkDate? y m.toNat 1 else none
      | _, _ => none
    | _ => none
  else
    (parse_date? birth_date_str).map PyDateTime.date

/-- `ref.year - birth.year - ((ref.month, ref.day) < (birth.month, birth.day))`. -/
def ageBetween (birth ref : PyDate) : Int :=
  (ref.year : Int) - (birth.year : Int) -
    (if ref.month < birth.month ∨ (ref.month = birth.month ∧ ref.day < birth.day)
     then 1 else 0)

/-- `calculate_age` (`calculate_age_distribution.py`): falsy inputs or any
parse failure yield `None`. -/
def calculate_age (birth_date_str reference_event_date_str : Option Str) :
    Option Int :=
  match truthyStr birth_date_str, truthyStr reference_event_date_str with
  | some b, some r =>
    match parse_date? r with
    | none => none
    | some refDt =>
      match birthDateOf? b with
      | some bd => some (ageBetween bd refDt.date)
      | none => none
  | _, _ => none

/-- `calculate_age_at_event` (`fhir_to_eventstream.py`): the same algorithm,
taking an already-parsed event datetime. -/
def calculate_age_at_event (birth_date_str : Option Str)
    (event_date_dt : Option PyDateTime) : Option Int :=
  match truthyStr birth_date_str, event_date_dt with
  | some b, some dt =>
    match birthDateOf? b with
    | some bd => some (ageBetween bd dt.date)
    | none => none
  | _, _ => none


/-! ## Distribution Reporter (`calculate_age_distribution.py`) -/

/-- Models `np.arange(0, stop, step)` for a positive integer `step`: the
multiples of `step` strictly below `stop`. -/
def arange0 (stop step : Nat) : List Nat :=
  (List.range ((stop + step - 1) / step)).map (· * step)

/-- Models `np.histogram(ages, bins=edges)` for strictly increasing integer
edges: one count per bin, each bin right-open except the last, which is
closed (numpy's documented behaviour). -/
def histogramCounts (ages : List Nat) (edges : List Nat) : List Nat :=
  (List.range (edges.length - 1)).map (fun i =>
    ages.countP (fun a =>
      decide (edges.getD i 0 ≤ a) &&
      (if i = edges.length - 2 then decide (a ≤ edges.getD (i + 1) 0)
       else decide (a < edges.getD (i + 1) 0))))

/-- The CSV row labels: the f-string with `edges[i]` and `edges[i+1] - 1`. -/
def binLabels (edges : List Nat) : List Str :=
  (List.range (edges.length - 1)).map (fun i =>
    natToChars (edges.getD i 0) ++ '-' :: natToChars (edges.getD (i + 1) 0 - 1))

/-- The (label, count) rows `generate_and_save_distribution` writes to
`age_distribution.csv`.  The function returns without writing anything when
the age list is empty; ages are the non-negative integers the caller
collects. -/
def ageDistributionRows (ages : List Nat) (bin_width : Nat) : List (Str × Nat) :=
  match ages with
  | [] => []
  | _ =>
    let max_age := ages.foldl Nat.max 0
    let bins := arange0 (max_age + bin_width) bin_width
    (binLabels bins).zip (histogramCounts ages bins)

/-- The spec-side restatement of the reporter's output, for comparison with
`ageDistributionRows`: `n = (max + W - 1) / W` bins — the ceiling of
`max / W`, so when `W` divides a positive `max` there is *no* bin starting at
`max`; bin `i` covers `[i*W, (i+1)*W)` and is labelled
`"{i*W}-{(i+1)*W-1}"`, except the last bin, which also counts its right edge
`n*W`. -/
def specDistributionRows (ages : List Nat) (W : Nat) : List (Str × Nat) :=
  match ages with
  | [] => []
  | _ =>
    let M := ages.foldl Nat.max 0
    let n := (M + W - 1) / W
    (List.range n).map (fun i =>
      (natToChars (i * W) ++ '-' :: natToChars ((i + 1) * W - 1),
       if i + 1 = n then ages.countP (fun a => decide (i * W ≤ a) && decide (a ≤ n * W))
       else ages.countP (fun a => decide (i * W ≤ a) && decide (a < (i + 1) * W))))

/-! ## Code Catalog Builder (`extract_unique_codes.py`)

The builder re-reads the persisted patient files; a coding dict there is
modelled by the two fields the builder reads. -/

/-- A persisted coding entry as `extract_unique_codes.py` reads it. -/
structure PCoding where
  system : Option Str := none
  code : Option Str := none
  deriving DecidableEq, Repr

/-- A persisted clinical event, restricted to the fields the builder reads. -/
structure PEvent where
  resourceType : Option Str := none
  primary_codings : List PCoding := []
  status_codings : List PCoding := []
  intent_codings : List PCoding := []
  interpretation_codings : List PCoding := []
  value_concept_codings : List PCoding := []
  unit_code : Option Str := none
  deriving DecidableEq, Repr

/-- Persisted demographics, restricted to the fields the builder reads. -/
structure PDemographics where
  race_codings : List PCoding := []
  ethnicity_codings : List PCoding := []
  gender : Option Str := none
  deriving DecidableEq, Repr

/-- One persisted patient record. -/
structure PPatient where
  clinical_events : List PEvent := []
  demographics : PDemographics := {}
  deriving DecidableEq, Repr

/-- The `CodeSource` namedtuple: resource type plus the optional source
field (tracked only for dynamically determined systems). -/
structure CodeSource where
  resource_type : Str
  source_field : Option Str := none
  deriving DecidableEq, Repr, Inhabited

/-- One `code_usage[system][source][code] += 1` operation; the usage table
is the multiset of these increments. -/
structure UsageInc where
  system : Str
  source : CodeSource
  code : Str
  deriving DecidableEq, Repr, Inhabited

/-- A dynamic-system branch of `collect_unique_codes`: one increment per
entry whose `system` and `code` are both truthy, tagging the source field. -/
def dynIncrements (rt field : Str) (entries : List PCoding) : List UsageInc :=
  entries.filterMap (fun e =>
    match truthyStr e.system, truthyStr e.code with
    | some s, some c => some ⟨s, ⟨rt, some field⟩, c⟩
    | _, _ => none)

/-- The increments one persisted event contributes, in execution order
(five dynamic-system loops, then the hard-coded `unit_code` branch). -/
def eventIncrements (ev : PEvent) : List UsageInc :=
  let rt := ev.resourceType.getD "Unknown".toList
  dynIncrements rt "primary_codings".toList ev.primary_codings ++
  dynIncrements rt "status_codings".toList ev.status_codings ++
  dynIncrements rt "intent_codings".toList ev.intent_codings ++
  dynIncrements rt "interpretation_codings".toList ev.interpretation_codings ++
  dynIncrements rt "value_concept_codings".toList ev.value_concept_codings ++
  (match truthyStr ev.unit_code with
   | some c => [⟨"unit_code".toList, ⟨rt, none⟩, c⟩]
   | none => [])

/-- All increments `collect_unique_codes` performs for one patient file:
events first, then the hard-coded `race_code` / `ethnicity_code` / `gender`
branches. -/
def patientIncrements (p : PPatient) : List UsageInc :=
  p.clinical_events.flatMap eventIncrements ++
  p.demographics.race_codings.filterMap (fun e =>
    (truthyStr e.code).map (fun c =>
      (⟨"race_code".toList, ⟨"Patient".toList, none⟩, c⟩ : UsageInc))) ++
  p.demographics.ethnicity_codings.filterMap (fun e =>
    (truthyStr e.code).map (fun c =>
      (⟨"ethnicity_code".toList, ⟨"Patient".toList, none⟩, c⟩ : UsageInc))) ++
  (match truthyStr p.demographics.gender with
   | some g => [⟨"gender".toList, ⟨"Patient".toList, none⟩, g⟩]
   | none => [])

/-- The five dynamic source-field names. -/
def dynamicSourceFields : List Str :=
  ["primary_codings".toList, "status_codings".toList, "intent_codings".toList,
   "interpretation_codings".toList, "value_concept_codings".toList]

/-- The four hard-coded pseudo-systems. -/
def hardCodedSystems : List Str :=
  ["unit_code".toList, "race_code".toList, "ethnicity_code".toList, "gender".toList]

/-- The coding list of a persisted event that a dynamic source-field name
refers to. -/
def eventFieldCodings (f : Str) (ev : PEvent) : List PCoding :=
  if f = "primary_codings".toList then ev.primary_codings
  else if f = "status_codings".toList then ev.status_codings
  else if f = "intent_codings".toList then ev.intent_codings
  else if f = "interpretation_codings".toList then ev.interpretation_codings
  else if f = "value_concept_codings".toList then ev.value_concept_codings
  else []

/-! ## JSON values and the persisted-record serialization

`generate_code_embeddings.py`'s collector reads the persisted files through
untyped `dict.get` calls, so it is modelled over arbitrary JSON values. -/

/-- An arbitrary JSON value (as loaded by `json.load`). -/
inductive JVal where
  | null
  | bool (b : Bool)
  | num (q : ℚ)
  | str (s : Str)
  | arr (xs : List JVal)
  | obj (fields : List (Str × JVal))

/-- First-match key lookup in a JSON object's field list. -/
def jLookup : List (Str × JVal) → Str → Option JVal
  | [], _ => none
  | (k, v) :: rest, key => if key = k then some v else jLookup rest key

/-- Python `o.get(key, default)` (the collector only calls it on dicts). -/
def jGetD (o : JVal) (key : Str) (dflt : JVal) : JVal :=
  match o with
  | .obj fields => (jLookup fields key).getD dflt
  | _ => dflt

/-- The elements iterated over (the collector only iterates lists). -/
def jItems : JVal → List JVal
  | .arr xs => xs
  | _ => []

/-- Python truthiness of a JSON value. -/
def jTruthy : JVal → Bool
  | .null => false
  | .bool b => b
  | .num q => decide (q ≠ 0)
  | .str s => decide (s ≠ [])
  | .arr xs => !xs.isEmpty
  | .obj fields => !fields.isEmpty

def optStrJ : Option Str → JVal
  | some s => .str s
  | none => .null

def optNumJ : Option ℚ → JVal
  | some q => .num q
  | none => .null

/-- A pipeline coding serialized to JSON: always all three keys. -/
def codingToJson (c : Coding) : JVal :=
  .obj [("system".toList, .str c.system), ("code".toList, .str c.code),
        ("display".toList, optStrJ c.display)]

/-- A demographics race / ethnicity coding serialized to JSON: only `code`
and `display`. -/
def demoCodingToJson (c : DemoCoding) : JVal :=
  .obj [("code".toList, optStrJ c.code), ("display".toList, optStrJ c.display)]

/-- The persisted event dict: the keys of `event_data` in insertion order,
plus the `age_at_event` key when the backfill pass ran. -/
def eventToJson (e : EventData) (age_at_event : Option (Option Int)) : JVal :=
  .obj ([("event_fhir_id".toList, optStrJ e.event_fhir_id),
         ("patient_fhir_id".toList, optStrJ e.patient_fhir_id),
         ("resourceType".toList, .str e.resourceType),
         ("event_timestamp".toList, .str e.event_timestamp),
         ("year".toList, .num e.year),
         ("primary_codings".toList, .arr (e.primary_codings.map codingToJson)),
         ("status_codings".toList, .arr (e.status_codings.map codingToJson)),
         ("intent_codings".toList, .arr (e.intent_codings.map codingToJson)),
         ("interpretation_codings".toList,
          .arr (e.interpretation_codings.map codingToJson)),
         ("value_numeric".toList, optNumJ e.value_numeric),
         ("value_concept_codings".toList,
          .arr (e.value_concept_codings.map codingToJson)),
         ("unit_code".toList, optStrJ e.unit_code),
         ("unit_display".toList, optStrJ e.unit_display)] ++
        (match age_at_event with
         | some a =>
           [("age_at_event".toList,
             match a with
             | some i => JVal.num (i : ℚ)
             | none => JVal.null)]
         | none => []))

/-- The persisted demographics dict, keys in insertion order. -/
def demographicsToJson (d : Demographics) : JVal :=
  .obj [("fhir_patient_id".toList, optStrJ d.fhir_patient_id),
        ("birthDate".toList, optStrJ d.birthDate),
        ("gender".toList, optStrJ d.gender),
        ("race_codings".toList, .arr (d.race_codings.map demoCodingToJson)),
        ("ethnicity_codings".toList, .arr (d.ethnicity_codings.map demoCodingToJson))]

/-- The per-patient record `process_patient_fhir_bundle` writes: filename id,
demographics, and the clinical events, each gaining an `age_at_event` key
exactly when the demographics carry a truthy birth date. -/
def processedPatientJson (patient_id_from_filename : Str)
    (demographics : Demographics) (clinical_events : List EventData) : JVal :=
  .obj [("patient_id_from_filename".toList, .str patient_id_from_filename),
        ("demographics".toList, demographicsToJson demographics),
        ("clinical_events".toList, .arr (clinical_events.map (fun e =>
          eventToJson e
            (match truthyStr demographics.birthDate with
             | some b =>
               some (calculate_age_at_event (some b) (parse_date? e.event_timestamp))
             | none => none))))]

/-! ## The embedding script's collector (`generate_code_embeddings.py`) -/

/-- One `for ... in event.get(key, [])` loop of the collector: an add of
`(system, code)` for every entry whose `system` and `code` are truthy. -/
def sysCodeOps (event : JVal) (key : Str) : List (JVal × JVal) :=
  (jItems (jGetD event key (JVal.arr []))).filterMap (fun entry =>
    let system := jGetD entry "system".toList JVal.null
    let code := jGetD entry "code".toList JVal.null
    if jTruthy system && jTruthy code then some (system, code) else none)

/-- The adds one clinical-event dict triggers in the collector: the three
`system`/`code` loops over `codes` / `status_codes` / `intent_codes`, then
the `interpretation_codes` loop, which adds any string entry under the fixed
interpretation system. -/
def embeddingEventOps (event : JVal) : List (JVal × JVal) :=
  sysCodeOps event "codes".toList ++
  sysCodeOps event "status_codes".toList ++
  sysCodeOps event "intent_codes".toList ++
  (jItems (jGetD event "interpretation_codes".toList (JVal.arr []))).filterMap
    (fun ic =>
      match ic with
      | .str _ => some (JVal.str INTERP_SYSTEM_URL, ic)
      | _ => none)

/-- The `(system, code)` add-operations `collect_unique_codes` of
`generate_code_embeddings.py` performs on one loaded patient JSON value, in
execution order.  The distinct-code sets it builds are determined by this
list.  (The source binds `demographics` once; re-looking it up here is the
same pure computation.) -/
def embeddingCollectOps (patient_data : JVal) : List (JVal × JVal) :=
  (jItems (jGetD patient_data "clinical_events".toList (JVal.arr []))).flatMap
    embeddingEventOps ++
  (jItems (jGetD (jGetD patient_data "demographics".toList (JVal.obj []))
      "race_codes".toList (JVal.arr []))).map
    (fun rc => (JVal.str "race".toList, rc)) ++
  (jItems (jGetD (jGetD patient_data "demographics".toList (JVal.obj []))
      "ethnicity_codes".toList (JVal.arr []))).map
    (fun ec => (JVal.str "ethnicity".toList, ec)) ++
  (if jTruthy (jGetD (jGetD patient_data "demographics".toList (JVal.obj []))
      "gender".toList JVal.null)
   then [(JVal.str "gender".toList,
          jGetD (jGetD patient_data "demographics".toList (JVal.obj []))
            "gender".toList JVal.null)]
   else [])


/-! ## Claim theorems -/

/-- A well-formed coding entry carrying exactly a `Coding`'s data. -/
def mkItem (c : Coding) : CodingItem := .item (some c.system) (some c.code) c.display

/-- **C4.**  For every concept object and every prefix list, the Coding
Extractor returns exactly the codings whose system starts with at least one
supplied prefix — all of them, preserving multiplicity and source order
(it is the filter of the concept's coding list); an absent or malformed
concept (not a dict, or no `coding` key) yields `[]`, and the function is
total, so no error is ever raised.  Moreover every returned coding's system
matches some supplied prefix, whatever the entries look like. -/
theorem C4_coding_extractor_exact_filter :
    (∀ (codings : List Coding) (text : Option Str) (prefixes : List Str),
      get_all_codings_from_concept
          (Concept.dict ⟨some (codings.map mkItem), text⟩) prefixes =
        codings.filter (fun c => prefixes.any (fun t => pyStartswith c.system t))) ∧
    (∀ prefixes, get_all_codings_from_concept Concept.absent prefixes = []) ∧
    (∀ prefixes, get_all_codings_from_concept Concept.notDict prefixes = []) ∧
    (∀ text prefixes,
      get_all_codings_from_concept (Concept.dict ⟨none, text⟩) prefixes = []) ∧
    (∀ (d : ConceptDict) (prefixes : List Str) (c : Coding),
      c ∈ get_all_codings_from_concept (Concept.dict d) prefixes →
      prefixes.any (fun t => pyStartswith c.system t) = true) := by
  refine ⟨?_, fun _ => rfl, fun _ => rfl, fun _ _ => rfl, ?_⟩
  · intro codings text prefixes
    induction codings with
    | nil => rfl
    | cons c cs ih =>
      simp only [List.map_cons, get_all_codings_from_concept, List.filterMap_cons,
        List.filter_cons, mkItem] at ih ⊢
      by_cases h : prefixes.any (fun t => pyStartswith c.system t) = true
      · simp only [h, if_true]
        exact congrArg (c :: ·) ih
      · simp only [h, if_false, Bool.false_eq_true]
        exact ih
  · intro d prefixes c hc
    cases hd : d.coding with
    | none => rw [get_all_codings_from_concept, hd] at hc; cases hc
    | some entries =>
      rw [get_all_codings_from_concept, hd] at hc
      obtain ⟨e, _, he⟩ := List.mem_filterMap.mp hc
      cases e with
      | junk => cases he
      | item sys? code? disp? =>
        cases sys? with
        | none => cases he
        | some s =>
          cases code? with
          | none => cases he
          | some c' =>
            by_cases h : prefixes.any (fun t => pyStartswith s t) = true
            · simp only [h, if_true, Option.some.injEq] at he
              rw [← he]
              exact h
            · simp only [h, if_false] at he
              cases he

/-- Witness for C4 at a concrete concept: a SNOMED coding is matched by the
SNOMED prefix. -/
theorem C4_witness :
    [("http://snomed.info/sct".toList : Str)].any
      (fun t => pyStartswith "http://snomed.info/sct".toList t) = true :=
  C4_coding_extractor_exact_filter.2.2.2.2
    ⟨some [CodingItem.item (some "http://snomed.info/sct".toList)
      (some "44054006".toList) none], none⟩
    [SNOMED_URL] ⟨"http://snomed.info/sct".toList, "44054006".toList, none⟩
    (by decide)

/-- **C5.**  The Value Resolver's quantity branch comes first and is
exclusive: when `valueQuantity` is present the result carries the quantity's
numeric value, unit code and unit display and the concept-coding list is
empty. -/
theorem C5_value_quantity_branch (r : Resource) (q : Quantity)
    (h : r.valueQuantity = some q) :
    get_value_from_observation r =
      { value_numeric := q.value, value_concept_codings := [],
        unit_code := q.code, unit_display := q.unit } := by
  unfold get_value_from_observation
  rw [h]

/-- Witness for C5: the claim's scenario
`valueQuantity = {value: 7.2, unit: "mg/dL", code: "mg/dL"}` yields
`value_numeric = 7.2`, `unit_code = "mg/dL"`, `value_concept_codings = []`. -/
theorem C5_witness :
    get_value_from_observation
        { resourceType := some "Observation".toList
          valueQuantity := some
            ⟨some (7.2 : ℚ), some "mg/dL".toList, some "mg/dL".toList⟩ } =
      { value_numeric := some (7.2 : ℚ), value_concept_codings := [],
        unit_code := some "mg/dL".toList, unit_display := some "mg/dL".toList } :=
  C5_value_quantity_branch _ _ rfl

/-- C6's concrete fallback scenario: a single non-SNOMED/LOINC coding
`{system: "local", code: "X1"}` and no text. -/
def obsLocalCoding : Resource :=
  { resourceType := some "Observation".toList
    valueCodeableConcept := some
      { coding := some [CodingItem.item (some "local".toList) (some "X1".toList) none] } }

/-- The same Observation with the `system` key absent from its only coding. -/
def obsNoSystem : Resource :=
  { resourceType := some "Observation".toList
    valueCodeableConcept := some
      { coding := some [CodingItem.item none (some "X1".toList) none] } }

/-- Counterexample to C6 as stated: for a coded value whose only raw coding
has no `system`, the emitted system tag is `"unknown_system"`, not the
claimed `"unknown"`. -/
theorem C6_counterexample :
    (get_value_from_observation obsNoSystem).value_concept_codings =
      [⟨"unknown_system".toList, "X1".toList, none⟩] ∧
    "unknown_system".toList ≠ "unknown".toList := by
  exact ⟨rfl, by decide⟩

/-- **C6 (amended).**  For an Observation with a coded-concept value and no
quantity, when the SNOMED/LOINC extraction yields nothing: if raw codings
exist (their first entry carrying a `code`), the result is that first raw
coding with its system as given or `"unknown_system"` when absent; if that
fallback also yields nothing and free text exists, the result is the single
synthetic `text_value` coding; and the claim's concrete scenario yields
`[{system: "local", code: "X1", display: None}]`. -/
theorem C6_value_concept_fallbacks (r : Resource) (vcc : ConceptDict)
    (hq : r.valueQuantity = none) (hc : r.valueCodeableConcept = some vcc)
    (hempty : get_all_codings_from_concept (.dict vcc) [SNOMED_URL, LOINC_URL] = []) :
    (∀ sys? c d rest, vcc.coding = some (CodingItem.item sys? (some c) d :: rest) →
      (get_value_from_observation r).value_concept_codings =
        [⟨sys?.getD "unknown_system".toList, c, d⟩]) ∧
    (firstRawFallback vcc = [] → ∀ t, vcc.text = some t → t ≠ [] →
      (get_value_from_observation r).value_concept_codings =
        [⟨"text_value".toList, t, some t⟩]) ∧
    (get_value_from_observation obsLocalCoding).value_concept_codings =
      [⟨"local".toList, "X1".toList, none⟩] := by
  refine ⟨?_, ?_, rfl⟩
  · intro sys? c d rest hcod
    unfold get_value_from_observation
    rw [hq, hc]
    simp only [hempty, if_true, List.nil_append]
    have hfb : firstRawFallback vcc = [⟨sys?.getD "unknown_system".toList, c, d⟩] := by
      rw [firstRawFallback, hcod]
    rw [hfb]
    simp
  · intro hfb t ht htne
    unfold get_value_from_observation
    rw [hq, hc]
    simp only [hempty, hfb, if_true, List.nil_append, List.append_nil]
    rw [textFallback, ht, truthyStr]
    simp [htne]

/-- Witness for C6 at the concrete scenario observation. -/
theorem C6_witness :
    (get_value_from_observation obsLocalCoding).value_concept_codings =
      [⟨"local".toList, "X1".toList, none⟩] :=
  (C6_value_concept_fallbacks obsLocalCoding
    ⟨some [CodingItem.item (some "local".toList) (some "X1".toList) none], none⟩
    rfl rfl (by decide)).2.2


theorem truthyStr_of_ne {s : Str} (h : s ≠ []) : truthyStr (some s) = some s := by
  rw [truthyStr, if_neg h]

theorem not_digit_not_mem {s : Str} (h : ∀ c ∈ s, c.isDigit) {c' : Char}
    (hc : c'.isDigit = false) : c' ∉ s := by
  intro hmem
  rw [h c' hmem] at hc
  cases hc

/-- Parsing a 4-digit year padded with `"-01-01"`: the model parser yields
January 1 of that year (subject to `date`'s validity check). -/
theorem parse_date?_year_pad (ys : Str) (hy : ys.length = 4)
    (hyd : ∀ c ∈ ys, c.isDigit) :
    parse_date? (ys ++ "-01-01".toList) =
      (match digitsToNat? ys with
       | some n =>
         (match mkDate? (n : Int) 1 1 with
          | some _ => some (⟨n, 1, 1, 0, 0, 0, none⟩ : PyDateTime)
          | none => none)
       | none => none) := by
  have hT : 'T' ∉ ys ++ "-01-01".toList := by
    rw [List.mem_append]
    rintro (h | h)
    · exact not_digit_not_mem hyd (by decide) h
    · simp at h
  have hdash : '-' ∉ ys := not_digit_not_mem hyd (by decide)
  rw [parse_date?.eq_def, splitOnChar_of_not_mem hT]
  rw [show (ys ++ "-01-01".toList) = ys ++ '-' :: "01-01".toList from rfl]
  simp only
  rw [parseDatePart?.eq_def, splitOnChar_append hdash]
  rw [show splitOnChar '-' "01-01".toList = ["01".toList, "01".toList] from rfl]
  simp only
  rw [show fixedNat? 4 ys = digitsToNat? ys from by rw [fixedNat?, if_pos hy]]
  cases hn : digitsToNat? ys with
  | none => rfl
  | some n =>
    simp only [Option.bind_eq_bind, Option.some_bind]
    rw [show fixedNat? 2 "01".toList = some 1 from rfl]
    simp only [Option.some_bind]
    cases hmk : mkDate? (n : Int) 1 1 with
    | none => rfl
    | some pd => rfl

/-- Year-only collapse for the shared birth-date interpretation: a 4-digit
year string and the corresponding `"-01-01"`-padded January 1 date produce
the same optional birth date. -/
theorem birthDateOf?_year_collapse (ys : Str) (hy : ys.length = 4)
    (hyd : ∀ c ∈ ys, c.isDigit) :
    birthDateOf? (ys ++ "-01-01".toList) = birthDateOf? ys := by
  have hlen : (ys ++ "-01-01".toList).length = 10 := by
    rw [List.length_append, hy]; rfl
  rw [birthDateOf?, hlen]
  simp only [show ¬ ((10 : Nat) = 4) from by decide,
    show ¬ ((10 : Nat) = 7) from by decide, if_false]
  rw [parse_date?_year_pad ys hy hyd]
  rw [birthDateOf?, if_pos hy, pyInt?_of_digits ys (by intro h; rw [h] at hy; cases hy) hyd]
  cases hn : digitsToNat? ys with
  | none => rfl
  | some n =>
    simp only [Option.map_some', Option.map_some]
    cases hmk : mkDate? (n : Int) 1 1 with
    | none => simp [hmk]
    | some pd =>
      have hpd : pd = ⟨((n : Int)).toNat, 1, 1⟩ := by
        rw [mkDate?] at hmk
        split at hmk
        · injection hmk with h; exact h.symm
        · cases hmk
      simp [hmk, hpd, PyDateTime.date]

/-- Parsing `"YYYY-MM"` padded with `"-01"`. -/
theorem parse_date?_month_pad (ys ms : Str) (hy : ys.length = 4)
    (hyd : ∀ c ∈ ys, c.isDigit) (hm : ms.length = 2) (hmd : ∀ c ∈ ms, c.isDigit) :
    parse_date? (ys ++ '-' :: (ms ++ "-01".toList)) =
      (match digitsToNat? ys, digitsToNat? ms with
       | some n, some k =>
         (match mkDate? (n : Int) k 1 with
          | some _ => some (⟨n, k, 1, 0, 0, 0, none⟩ : PyDateTime)
          | none => none)
       | _, _ => none) := by
  have hT : 'T' ∉ ys ++ '-' :: (ms ++ "-01".toList) := by
    rw [List.mem_append]
    rintro (h | h)
    · exact not_digit_not_mem hyd (by decide) h
    · rcases List.mem_cons.mp h with h' | h'
      · cases h'
      · rw [List.mem_append] at h'
        rcases h' with h'' | h''
        · exact not_digit_not_mem hmd (by decide) h''
        · simp at h''
  have hdashY : '-' ∉ ys := not_digit_not_mem hyd (by decide)
  have hdashM : '-' ∉ ms := not_digit_not_mem hmd (by decide)
  rw [parse_date?.eq_def, splitOnChar_of_not_mem hT]
  simp only
  rw [parseDatePart?.eq_def, splitOnChar_append hdashY]
  rw [show (ms ++ "-01".toList) = ms ++ '-' :: "01".toList from rfl]
  rw [splitOnChar_append hdashM]
  rw [show splitOnChar '-' "01".toList = ["01".toList] from rfl]
  simp only
  rw [show fixedNat? 4 ys = digitsToNat? ys from by rw [fixedNat?, if_pos hy]]
  rw [show fixedNat? 2 ms = digitsToNat? ms from by rw [fixedNat?, if_pos hm]]
  cases hn : digitsToNat? ys with
  | none => rfl
  | some n =>
    cases hk : digitsToNat? ms with
    | none => rfl
    | some k =>
      simp only [Option.bind_eq_bind, Option.some_bind]
      rw [show fixedNat? 2 "01".toList = some 1 from rfl]
      simp only [Option.some_bind]
      cases hmk : mkDate? (n : Int) k 1 with
      | none => rfl
      | some pd => rfl

/-- Year-month collapse for the shared birth-date interpretation. -/
theorem birthDateOf?_month_collapse (ys ms : Str) (hy : ys.length = 4)
    (hyd : ∀ c ∈ ys, c.isDigit) (hm : ms.length = 2) (hmd : ∀ c ∈ ms, c.isDigit) :
    birthDateOf? (ys ++ '-' :: (ms ++ "-01".toList)) = birthDateOf? (ys ++ '-' :: ms) := by
  have hdashY : '-' ∉ ys := not_digit_not_mem hyd (by decide)
  have hdashM : '-' ∉ ms := not_digit_not_mem hmd (by decide)
  have hlenL : (ys ++ '-' :: (ms ++ "-01".toList)).length = 10 := by
    rw [List.length_append, hy]
    simp [hm]
  have hlenR : (ys ++ '-' :: ms).length = 7 := by
    rw [List.length_append, hy]
    simp [hm]
  rw [birthDateOf?, hlenL]
  simp only [show ¬ ((10 : Nat) = 4) from by decide,
    show ¬ ((10 : Nat) = 7) from by decide, if_false]
  rw [parse_date?_month_pad ys ms hy hyd hm hmd]
  rw [birthDateOf?, hlenR]
  simp only [show ¬ ((7 : Nat) = 4) from by decide, if_false, if_true]
  rw [splitOnChar_append hdashY, splitOnChar_of_not_mem hdashM]
  simp only
  rw [pyInt?_of_digits ys (by intro h; rw [h] at hy; cases hy) hyd]
  rw [pyInt?_of_digits ms (by intro h; rw [h] at hm; cases hm) hmd]
  cases hn : digitsToNat? ys with
  | none => rfl
  | some n =>
    cases hk : digitsToNat? ms with
    | none => rfl
    | some k =>
      simp only [Option.bind_eq_bind, Option.some_bind, Option.map_some', Option.map_some,
        Option.pure_def]
      have h0k : (0 : Int) ≤ (k : Int) := Int.natCast_nonneg k
      rw [if_pos h0k, Int.toNat_natCast]
      cases hmk : mkDate? (n : Int) k 1 with
      | none => simp [hmk]
      | some pd =>
        have hpd : pd = ⟨((n : Int)).toNat, k, 1⟩ := by
          rw [mkDate?] at hmk
          split at hmk
          · injection hmk with h; exact h.symm
          · cases hmk
        simp [hmk, hpd, PyDateTime.date]

/-- `calculate_age` depends on the birth-date string only through
`birthDateOf?` (both strings truthy). -/
theorem calculate_age_congr (b1 b2 : Str) (h1 : b1 ≠ []) (h2 : b2 ≠ [])
    (h : birthDateOf? b1 = birthDateOf? b2) (ref : Option Str) :
    calculate_age (some b1) ref = calculate_age (some b2) ref := by
  rw [calculate_age.eq_def, calculate_age.eq_def,
    truthyStr_of_ne h1, truthyStr_of_ne h2]
  cases truthyStr ref with
  | none => rfl
  | some r =>
    simp only
    cases parse_date? r with
    | none => rfl
    | some refDt => rw [h]

/-- Likewise for `calculate_age_at_event`. -/
theorem calculate_age_at_event_congr (b1 b2 : Str) (h1 : b1 ≠ []) (h2 : b2 ≠ [])
    (h : birthDateOf? b1 = birthDateOf? b2) (dt? : Option PyDateTime) :
    calculate_age_at_event (some b1) dt? = calculate_age_at_event (some b2) dt? := by
  rw [calculate_age_at_event.eq_def, calculate_age_at_event.eq_def,
    truthyStr_of_ne h1, truthyStr_of_ne h2]
  cases dt? with
  | none => rfl
  | some dt => simp only; rw [h]

/-- **C7.**  Both Age Calculators are invariant to birth-date granularity
collapse: for every reference date, a 4-digit year-only birth string and the
corresponding `"-01-01"`-padded January 1 date give the same age, and a
zero-padded year-month string and the `"-01"`-padded first of that month give
the same age (missing month and day default to January 1). -/
theorem C7_age_granularity_invariance (ys ms : Str) (ref : Option Str)
    (dt? : Option PyDateTime)
    (hy : ys.length = 4) (hyd : ∀ c ∈ ys, c.isDigit)
    (hm : ms.length = 2) (hmd : ∀ c ∈ ms, c.isDigit) :
    calculate_age (some ys) ref = calculate_age (some (ys ++ "-01-01".toList)) ref ∧
    calculate_age (some (ys ++ '-' :: ms)) ref =
      calculate_age (some (ys ++ '-' :: (ms ++ "-01".toList))) ref ∧
    calculate_age_at_event (some ys) dt? =
      calculate_age_at_event (some (ys ++ "-01-01".toList)) dt? ∧
    calculate_age_at_event (some (ys ++ '-' :: ms)) dt? =
      calculate_age_at_event (some (ys ++ '-' :: (ms ++ "-01".toList))) dt? := by
  have hyne : ys ≠ [] := by intro h; rw [h] at hy; cases hy
  have hpne : ys ++ "-01-01".toList ≠ [] := by simp [hyne]
  have hmne : ys ++ '-' :: ms ≠ [] := by simp
  have hmpne : ys ++ '-' :: (ms ++ "-01".toList) ≠ [] := by simp
  have hYc := birthDateOf?_year_collapse ys hy hyd
  have hMc := birthDateOf?_month_collapse ys ms hy hyd hm hmd
  exact ⟨calculate_age_congr _ _ hyne hpne hYc.symm ref,
    calculate_age_congr _ _ hmne hmpne hMc.symm ref,
    calculate_age_at_event_congr _ _ hyne hpne hYc.symm dt?,
    calculate_age_at_event_congr _ _ hmne hmpne hMc.symm dt?⟩

/-- Witness for C7: `age("1980", 2020-06-15) = age("1980-01-01", 2020-06-15)`. -/
theorem C7_witness :
    calculate_age (some "1980".toList) (some "2020-06-15".toList) =
      calculate_age (some ("1980".toList ++ "-01-01".toList)) (some "2020-06-15".toList) :=
  (C7_age_granularity_invariance "1980".toList "03".toList
    (some "2020-06-15".toList) none (by decide) (by decide) (by decide) (by decide)).1


/-- The assembled event's timestamp field is the isoformat of the resolved
datetime, in every resource-type branch. -/
theorem buildEvent_event_timestamp (pid : Option Str) (r : Resource) (rt : Str)
    (dt : PyDateTime) : (buildEvent pid r rt dt).event_timestamp = dt.isoformat := by
  rw [buildEvent]
  split_ifs <;> rfl

/-- **C1.**  The Event Assembler emits an event for a record only when that
record is of one of the 6 target types *and* the Timestamp Resolver returns a
parsed timestamp for it — every emitted event's timestamp is the isoformat of
that resolved datetime (so it is present and non-null) — and a record whose
timestamp resolution fails contributes no event. -/
theorem C1_events_only_with_resolved_timestamp (patient_bundle : List Resource) :
    (∀ ev ∈ extract_clinical_events patient_bundle,
      ∃ r ∈ patient_bundle, ∃ rt, r.resourceType = some rt ∧
        rt ∈ TARGET_EVENT_RESOURCES ∧
        ∃ dt, get_event_timestamp r = some dt ∧ ev.event_timestamp = dt.isoformat) ∧
    (∀ r ∈ patient_bundle, get_event_timestamp r = none →
      eventOfResource (firstPatientId patient_bundle) r = none) := by
  constructor
  · intro ev hev
    rw [extract_clinical_events, List.mem_insertionSort] at hev
    obtain ⟨r, hr, hre⟩ := List.mem_filterMap.mp hev
    refine ⟨r, hr, ?_⟩
    rw [eventOfResource.eq_def] at hre
    cases hrt : r.resourceType with
    | none => rw [hrt] at hre; cases hre
    | some rt =>
      rw [hrt] at hre
      simp only at hre
      by_cases hmem : rt ∈ TARGET_EVENT_RESOURCES
      · rw [if_pos hmem] at hre
        cases hts : get_event_timestamp r with
        | none => rw [hts] at hre; cases hre
        | some dt =>
          rw [hts] at hre
          simp only [Option.some.injEq] at hre
          exact ⟨rt, rfl, hmem, dt, rfl, by rw [← hre, buildEvent_event_timestamp]⟩
      · rw [if_neg hmem] at hre; cases hre
  · intro r _ hts
    rw [eventOfResource.eq_def]
    cases hrt : r.resourceType with
    | none => rfl
    | some rt =>
      simp only
      split
      · rw [hts]
      · rfl

def patResource : Resource :=
  { resourceType := some "Patient".toList
    id := some "p1".toList }

def condResource : Resource :=
  { resourceType := some "Condition".toList
    id := some "c1".toList
    onsetDateTime := some "2019-05-20".toList }

/-- The concrete bundle used by C1's witness. -/
def c1Bundle : List Resource := [patResource, condResource]

/-- Witness for C1 at a concrete bundle: the single emitted event comes from
the Condition whose onset timestamp resolved. -/
theorem C1_witness :
    ∃ r ∈ c1Bundle, ∃ rt, r.resourceType = some rt ∧ rt ∈ TARGET_EVENT_RESOURCES ∧
      ∃ dt, get_event_timestamp r = some dt ∧
        ((extract_clinical_events c1Bundle).headI).event_timestamp = dt.isoformat :=
  (C1_events_only_with_resolved_timestamp c1Bundle).1
    (extract_clinical_events c1Bundle).headI (by decide)

def obsTokyo : Resource :=
  { resourceType := some "Observation".toList
    id := some "A".toList
    effectiveDateTime := some "2020-01-01T10:00:00+09:00".toList }

def obsUTC : Resource :=
  { resourceType := some "Observation".toList
    id := some "B".toList
    effectiveDateTime := some "2020-01-01T05:00:00+00:00".toList }

/-- The bundle refuting C2 as stated: the 09:00+09:00 observation (01:00
UTC) precedes the 05:00+00:00 one (05:00 UTC) in traversal order. -/
def c2Bundle : List Resource := [obsTokyo, obsUTC]

/-- Counterexample to C2 as stated: the assembler sorts by the ISO timestamp
*string*; on `c2Bundle` the emitted sequence reads, as points in time,
`[05:00 UTC, 01:00 UTC]` — strictly decreasing, so it is not sorted
ascending by the resolved timestamps as points in time. -/
theorem C2_counterexample :
    ((extract_clinical_events c2Bundle).map (fun e => e.event_timestamp)) =
      ["2020-01-01T05:00:00+00:00".toList, "2020-01-01T10:00:00+09:00".toList] ∧
    ((extract_clinical_events c2Bundle).map
        (fun e => (parse_date? e.event_timestamp).map PyDateTime.toInstant)) =
      [some 1577854800, some 1577840400] ∧
    (1577840400 : Int) < 1577854800 :=
  ⟨rfl, rfl, by decide⟩

/-- **C2 (amended).**  The event sequence is sorted ascending by the ISO
timestamp *string* (lexicographically) — which coincides with point-in-time
order only when the timestamps share a common UTC-offset representation — is
a permutation of the kept events, and the sort is stable: two events with
equal timestamp strings keep their original traversal order. -/
theorem C2_sorted_by_timestamp_string (patient_bundle : List Resource) :
    List.Sorted tsLe (extract_clinical_events patient_bundle) ∧
    (extract_clinical_events patient_bundle).Perm
      (patient_bundle.filterMap (eventOfResource (firstPatientId patient_bundle))) ∧
    (∀ a b : EventData,
      List.Sublist [a, b] (patient_bundle.filterMap (eventOfResource (firstPatientId patient_bundle))) →
      a.event_timestamp = b.event_timestamp →
      List.Sublist [a, b] (extract_clinical_events patient_bundle)) := by
  refine ⟨List.sorted_insertionSort tsLe _, List.perm_insertionSort tsLe _, ?_⟩
  intro a b hsub heq
  refine List.pair_sublist_insertionSort ?_ hsub
  show charListLe a.event_timestamp b.event_timestamp = true
  rw [heq]
  exact charListLe_refl _

def condX : Resource :=
  { resourceType := some "Condition".toList
    id := some "x".toList
    onsetDateTime := some "2019-05-20".toList }

def condY : Resource :=
  { resourceType := some "Condition".toList
    id := some "y".toList
    onsetDateTime := some "2019-05-20".toList }

/-- A bundle with two equal-timestamp events, for C2's stability witness. -/
def c2TieBundle : List Resource := [condX, condY]

/-- The kept events of `c2TieBundle` in traversal order. -/
def c2TieRaw : List EventData :=
  c2TieBundle.filterMap (eventOfResource (firstPatientId c2TieBundle))

/-- Witness for C2: on a concrete tie the original order survives the sort. -/
theorem C2_witness :
    List.Sublist [c2TieRaw.headI, c2TieRaw.tail.headI] (extract_clinical_events c2TieBundle) :=
  (C2_sorted_by_timestamp_string c2TieBundle).2.2 _ _ (by decide) (by decide)


/-- Every coding the extractor returns has a system matching one of the
supplied prefixes (shared helper). -/
theorem get_all_codings_system_matches (concept : Concept) (prefixes : List Str)
    (c : Coding) (hc : c ∈ get_all_codings_from_concept concept prefixes) :
    prefixes.any (fun t => pyStartswith c.system t) = true := by
  cases concept with
  | absent => cases hc
  | notDict => cases hc
  | dict d =>
    cases hd : d.coding with
    | none => rw [get_all_codings_from_concept, hd] at hc; cases hc
    | some entries =>
      rw [get_all_codings_from_concept, hd] at hc
      obtain ⟨e, _, he⟩ := List.mem_filterMap.mp hc
      cases e with
      | junk => cases he
      | item sys? code? disp? =>
        cases sys? with
        | none => cases he
        | some s =>
          cases code? with
          | none => cases he
          | some c' =>
            by_cases h : prefixes.any (fun t => pyStartswith s t) = true
            · simp only [h, if_true, Option.some.injEq] at he
              rw [← he]
              exact h
            · simp only [h, if_false] at he
              cases he

/-- **C3 (amended).**  Every coding the extractor emits (hence every event
coding matched from source data) carries a non-empty system whenever all the
supplied prefixes are non-empty — as they are at every call site — though its
code may be the empty string when the source entry's is; serialized event
codings always carry both a `system` and a `code` key; and the demographics
race / ethnicity codings are serialized with a `code` key but *no* `system`
key at all. -/
theorem C3_coding_shapes :
    (∀ (concept : Concept) (prefixes : List Str) (c : Coding),
      c ∈ get_all_codings_from_concept concept prefixes →
      (∀ p ∈ prefixes, p ≠ []) → c.system ≠ []) ∧
    (∀ c : Coding,
      jGetD (codingToJson c) "system".toList JVal.null = JVal.str c.system ∧
      jGetD (codingToJson c) "code".toList JVal.null = JVal.str c.code) ∧
    (∀ dc : DemoCoding,
      jGetD (demoCodingToJson dc) "system".toList JVal.null = JVal.null ∧
      jGetD (demoCodingToJson dc) "code".toList JVal.null = optStrJ dc.code) := by
  refine ⟨?_, fun c => ⟨rfl, rfl⟩, fun dc => ⟨rfl, rfl⟩⟩
  intro concept prefixes c hc hne
  have hmatch := get_all_codings_system_matches concept prefixes c hc
  obtain ⟨p, hp, hpre⟩ := List.any_eq_true.mp hmatch
  rw [pyStartswith, List.isPrefixOf_iff_prefix] at hpre
  obtain ⟨t, ht⟩ := hpre
  intro hnil
  rw [hnil] at ht
  exact hne p hp (List.append_eq_nil.mp ht).1

/-- Witness for C3: a concrete SNOMED coding extracted by the SNOMED prefix
has a non-empty system. -/
theorem C3_witness :
    (⟨SNOMED_URL, "44054006".toList, none⟩ : Coding).system ≠ [] :=
  C3_coding_shapes.1
    (Concept.dict ⟨some [CodingItem.item (some SNOMED_URL)
      (some "44054006".toList) none], none⟩)
    [SNOMED_URL] _ (by decide) (by decide)

def patRace : Resource :=
  { resourceType := some "Patient".toList
    id := some "p3".toList
    extension := [{ url := some US_CORE_RACE_URL
                    extension := [{ url := some "ombCategory".toList
                                    valueCoding := some { code := some "2106-3".toList
                                                          display := some "White".toList } }] }] }

def condEmptyCode : Resource :=
  { resourceType := some "Condition".toList
    onsetDateTime := some "2019-05-20".toList
    code := Concept.dict { coding := some [CodingItem.item (some SNOMED_URL) (some []) none] } }

/-- The bundle refuting C3 as stated. -/
def c3Bundle : List Resource := [patRace, condEmptyCode]

/-- Counterexample to C3 as stated: the emitted race coding's serialized dict
has a `code` but no `system` key (one of the two present without the other),
and an emitted primary coding carries the empty string as its code. -/
theorem C3_counterexample :
    ((extract_patient_demographics c3Bundle).map (fun d => d.race_codings)) =
      some [⟨some "2106-3".toList, some "White".toList⟩] ∧
    jGetD (demoCodingToJson ⟨some "2106-3".toList, some "White".toList⟩)
      "system".toList JVal.null = JVal.null ∧
    jGetD (demoCodingToJson ⟨some "2106-3".toList, some "White".toList⟩)
      "code".toList JVal.null = JVal.str "2106-3".toList ∧
    ((extract_clinical_events c3Bundle).headI).primary_codings =
      [⟨SNOMED_URL, [], none⟩] :=
  ⟨rfl, rfl, rfl, rfl⟩


theorem arange0_length (stop step : Nat) :
    (arange0 stop step).length = (stop + step - 1) / step := by
  rw [arange0, List.length_map, List.length_range]

theorem arange0_getD (stop step i : Nat) (h : i < (stop + step - 1) / step) :
    (arange0 stop step).getD i 0 = i * step := by
  rw [arange0, List.getD_eq_getElem?_getD, List.getElem?_map, List.getElem?_range h]
  rfl

theorem distributionRows_eq_aux (ages : List Nat) (W M : Nat) (hW : 0 < W) :
    (binLabels (arange0 (M + W) W)).zip (histogramCounts ages (arange0 (M + W) W)) =
      (List.range ((M + W - 1) / W)).map (fun i =>
        (natToChars (i * W) ++ '-' :: natToChars ((i + 1) * W - 1),
         if i + 1 = (M + W - 1) / W then
           ages.countP (fun a =>
             decide (i * W ≤ a) && decide (a ≤ ((M + W - 1) / W) * W))
         else ages.countP (fun a =>
           decide (i * W ≤ a) && decide (a < (i + 1) * W)))) := by
  have hcount : (M + W + W - 1) / W = (M + W - 1) / W + 1 := by
    have h1 : M + W + W - 1 = (M + W - 1) + W := by omega
    rw [h1, Nat.add_div_right _ hW]
  have hlen : (arange0 (M + W) W).length = (M + W - 1) / W + 1 := by
    rw [arange0_length, hcount]
  rw [binLabels, histogramCounts, hlen, Nat.add_sub_cancel, List.zip_map']
  apply List.map_congr_left
  intro i hi
  rw [List.mem_range] at hi
  have hgi : (arange0 (M + W) W).getD i 0 = i * W := by
    rw [arange0_getD]
    rw [hcount]
    omega
  have hgi1 : (arange0 (M + W) W).getD (i + 1) 0 = (i + 1) * W := by
    rw [arange0_getD]
    rw [hcount]
    omega
  rw [hgi, hgi1]
  by_cases hlast : i + 1 = (M + W - 1) / W
  · rw [if_pos hlast]
    refine congrArg (Prod.mk _) ?_
    refine congrArg (fun p => List.countP p ages) ?_
    funext x
    have h2 : i = (M + W - 1) / W + 1 - 2 := by omega
    rw [if_pos h2, hlast]
  · rw [if_neg hlast]
    refine congrArg (Prod.mk _) ?_
    refine congrArg (fun p => List.countP p ages) ?_
    funext x
    have h2 : ¬ (i = (M + W - 1) / W + 1 - 2) := by omega
    rw [if_neg h2]

/-- **C8 (amended).**  The Distribution Reporter's CSV rows are exactly the
bins described by `specDistributionRows`: `⌈max/W⌉` width-`W` bins from 0
upward with no gaps and empty bins reported as 0, each right-open except the
last, which also counts its right edge; in particular, when `W` divides a
positive `max`, no bin starting at `max` exists and `max` is counted in the
bin labelled `(max-W)-(max-1)`. -/
theorem C8_distribution_rows (ages : List Nat) (W : Nat) (hW : 0 < W) :
    ageDistributionRows ages W = specDistributionRows ages W := by
  cases ages with
  | nil => rfl
  | cons a as => exact distributionRows_eq_aux (a :: as) W ((a :: as).foldl Nat.max 0) hW

/-- Witness for C8 at the claim's scenario input. -/
theorem C8_witness :
    ageDistributionRows [2, 7, 7, 40] 5 = specDistributionRows [2, 7, 7, 40] 5 :=
  C8_distribution_rows [2, 7, 7, 40] 5 (by decide)

/-- Counterexample to C8 as stated: with ages `[2, 7, 7, 40]` and width 5 the
rows stop at the bin labelled `"35-39"`, which holds the maximum 40; there is
no `"40-44"` bin, so the claimed output (`..., 35-39: 0, 40-44: 1`) differs
from the actual one. -/
theorem C8_counterexample :
    ageDistributionRows [2, 7, 7, 40] 5 =
      [("0-4".toList, 1), ("5-9".toList, 2), ("10-14".toList, 0), ("15-19".toList, 0),
       ("20-24".toList, 0), ("25-29".toList, 0), ("30-34".toList, 0),
       ("35-39".toList, 1)] ∧
    ageDistributionRows [2, 7, 7, 40] 5 ≠
      [("0-4".toList, 1), ("5-9".toList, 2), ("10-14".toList, 0), ("15-19".toList, 0),
       ("20-24".toList, 0), ("25-29".toList, 0), ("30-34".toList, 0),
       ("35-39".toList, 0), ("40-44".toList, 1)] := by
  exact ⟨by decide, by decide⟩


theorem truthyStr_eq_some {o : Option Str} {s : Str} (h : truthyStr o = some s) :
    o = some s ∧ s ≠ [] := by
  cases o with
  | none => cases h
  | some t =>
    rw [truthyStr] at h
    by_cases ht : t = []
    · rw [if_pos ht] at h; cases h
    · rw [if_neg ht] at h
      injection h with h'
      subst h'
      exact ⟨rfl, ht⟩

/-- An increment produced by a dynamic-system loop records that loop's source
field and echoes a truthy system / code pair found in the entries. -/
theorem mem_dynIncrements {rt f : Str} {entries : List PCoding} {inc : UsageInc}
    (h : inc ∈ dynIncrements rt f entries) :
    inc.source = ⟨rt, some f⟩ ∧
    ∃ e ∈ entries, e.system = some inc.system ∧ e.code = some inc.code := by
  obtain ⟨e, he, hmap⟩ := List.mem_filterMap.mp h
  cases hs : truthyStr e.system with
  | none => rw [hs] at hmap; cases hmap
  | some s =>
    cases hc : truthyStr e.code with
    | none => rw [hs, hc] at hmap; cases hmap
    | some c =>
      rw [hs, hc] at hmap
      injection hmap with hv
      rw [← hv]
      exact ⟨rfl, e, he, (truthyStr_eq_some hs).1, (truthyStr_eq_some hc).1⟩

/-- **C9.**  In the Code Catalog Builder's usage table, every counted
occurrence either comes from a hard-coded branch — `source_field` absent and
the system one of the four pseudo-systems `unit_code` / `race_code` /
`ethnicity_code` / `gender` — or from one of the five dynamic-system loops:
`source_field` names that coding list and the occurrence's system and code
were read off an entry of that list in the data. -/
theorem C9_source_field_provenance (p : PPatient) (inc : UsageInc)
    (hinc : inc ∈ patientIncrements p) :
    (inc.source.source_field = none ∧ inc.system ∈ hardCodedSystems) ∨
    (∃ f, inc.source.source_field = some f ∧ f ∈ dynamicSourceFields ∧
      ∃ ev ∈ p.clinical_events, ∃ e ∈ eventFieldCodings f ev,
        e.system = some inc.system ∧ e.code = some inc.code) := by
  rw [patientIncrements] at hinc
  rcases List.mem_append.mp hinc with hrest | hgender
  · rcases List.mem_append.mp hrest with hrest2 | heth
    · rcases List.mem_append.mp hrest2 with hevents | hrace
      · obtain ⟨ev, hev, hevinc⟩ := List.mem_flatMap.mp hevents
        rw [eventIncrements] at hevinc
        rcases List.mem_append.mp hevinc with h5 | hunit
        · rcases List.mem_append.mp h5 with h4 | hvalue
          · rcases List.mem_append.mp h4 with h3 | hinterp
            · rcases List.mem_append.mp h3 with h2 | hintent
              · rcases List.mem_append.mp h2 with hprimary | hstatus
                · obtain ⟨hsrc, e, he, hsys, hcode⟩ := mem_dynIncrements hprimary
                  exact Or.inr ⟨"primary_codings".toList, by rw [hsrc], by decide,
                    ev, hev, e, he, hsys, hcode⟩
                · obtain ⟨hsrc, e, he, hsys, hcode⟩ := mem_dynIncrements hstatus
                  exact Or.inr ⟨"status_codings".toList, by rw [hsrc], by decide,
                    ev, hev, e, he, hsys, hcode⟩
              · obtain ⟨hsrc, e, he, hsys, hcode⟩ := mem_dynIncrements hintent
                exact Or.inr ⟨"intent_codings".toList, by rw [hsrc], by decide,
                  ev, hev, e, he, hsys, hcode⟩
            · obtain ⟨hsrc, e, he, hsys, hcode⟩ := mem_dynIncrements hinterp
              exact Or.inr ⟨"interpretation_codings".toList, by rw [hsrc], by decide,
                ev, hev, e, he, hsys, hcode⟩
          · obtain ⟨hsrc, e, he, hsys, hcode⟩ := mem_dynIncrements hvalue
            exact Or.inr ⟨"value_concept_codings".toList, by rw [hsrc], by decide,
              ev, hev, e, he, hsys, hcode⟩
        · cases hu : truthyStr ev.unit_code with
          | none => rw [hu] at hunit; cases hunit
          | some c =>
            rw [hu] at hunit
            rcases List.mem_singleton.mp hunit with rfl
            refine Or.inl ⟨rfl, ?_⟩
            show ("unit_code".toList : Str) ∈ hardCodedSystems
            decide
      · obtain ⟨e, _, hmap⟩ := List.mem_filterMap.mp hrace
        cases hc : truthyStr e.code with
        | none => rw [hc] at hmap; cases hmap
        | some c =>
          rw [hc] at hmap
          simp only [Option.map_some', Option.mem_def, Option.some.injEq] at hmap
          rw [← hmap]
          refine Or.inl ⟨rfl, ?_⟩
          show ("race_code".toList : Str) ∈ hardCodedSystems
          decide
    · obtain ⟨e, _, hmap⟩ := List.mem_filterMap.mp heth
      cases hc : truthyStr e.code with
      | none => rw [hc] at hmap; cases hmap
      | some c =>
        rw [hc] at hmap
        simp only [Option.map_some', Option.mem_def, Option.some.injEq] at hmap
        rw [← hmap]
        refine Or.inl ⟨rfl, ?_⟩
        show ("ethnicity_code".toList : Str) ∈ hardCodedSystems
        decide
  · cases hg : truthyStr p.demographics.gender with
    | none => rw [hg] at hgender; cases hgender
    | some g =>
      rw [hg] at hgender
      rcases List.mem_singleton.mp hgender with rfl
      refine Or.inl ⟨rfl, ?_⟩
      show ("gender".toList : Str) ∈ hardCodedSystems
      decide

/-- A concrete persisted patient for C9's witness. -/
def p9 : PPatient :=
  { clinical_events := [{ resourceType := some "Condition".toList
                          primary_codings := [{ system := some SNOMED_URL
                                                code := some "44054006".toList }] }]
    demographics := { gender := some "female".toList } }

/-- Witness for C9: the first increment of `p9` (a primary coding) lands in
the dynamic branch of the disjunction. -/
theorem C9_witness :
    (((patientIncrements p9).headI.source.source_field = none ∧
        (patientIncrements p9).headI.system ∈ hardCodedSystems) ∨
      (∃ f, (patientIncrements p9).headI.source.source_field = some f ∧
        f ∈ dynamicSourceFields ∧
        ∃ ev ∈ p9.clinical_events, ∃ e ∈ eventFieldCodings f ev,
          e.system = some (patientIncrements p9).headI.system ∧
          e.code = some (patientIncrements p9).headI.code)) :=
  C9_source_field_provenance p9 (patientIncrements p9).headI (by decide)


/-- A serialized pipeline event contributes nothing to the embedding
collector: the keys it reads (`codes`, `status_codes`, `intent_codes`,
`interpretation_codes`) do not occur among the persisted event's keys. -/
theorem embeddingEventOps_eventToJson (e : EventData) (a : Option (Option Int)) :
    embeddingEventOps (eventToJson e a) = [] := by
  cases a with
  | none => rfl
  | some a' => rfl

/-- **C10.**  For every patient record the event pipeline produces, the
embedding script's code collector gathers at most the single `gender` entry
from demographics: the event fields it reads and the `race_codes` /
`ethnicity_codes` demographics fields never occur in the pipeline's output
(which uses `primary_codings`, ..., `race_codings`, `ethnicity_codings`), so
every code system other than `gender` receives no codes. -/
theorem C10_embedding_collects_only_gender (fname : Str) (demo : Demographics)
    (events : List EventData) :
    embeddingCollectOps (processedPatientJson fname demo events) =
      (match truthyStr demo.gender with
       | some g => [(JVal.str "gender".toList, JVal.str g)]
       | none => []) := by
  obtain ⟨pid, bd, g?, rc, ec⟩ := demo
  rw [embeddingCollectOps]
  have h2 : (jItems (jGetD (processedPatientJson fname ⟨pid, bd, g?, rc, ec⟩ events)
      "clinical_events".toList (JVal.arr []))).flatMap embeddingEventOps = [] := by
    rw [show jItems (jGetD (processedPatientJson fname ⟨pid, bd, g?, rc, ec⟩ events)
        "clinical_events".toList (JVal.arr [])) =
        events.map (fun e => eventToJson e
          (match truthyStr bd with
           | some b =>
             some (calculate_age_at_event (some b) (parse_date? e.event_timestamp))
           | none => none)) from rfl]
    rw [List.flatMap_map]
    refine List.flatMap_eq_nil_iff.mpr ?_
    intro e _
    exact embeddingEventOps_eventToJson e _
  rw [h2]
  have hrace : jItems (jGetD (jGetD
      (processedPatientJson fname ⟨pid, bd, g?, rc, ec⟩ events)
      "demographics".toList (JVal.obj [])) "race_codes".toList (JVal.arr [])) =
      ([] : List JVal) := rfl
  have heth : jItems (jGetD (jGetD
      (processedPatientJson fname ⟨pid, bd, g?, rc, ec⟩ events)
      "demographics".toList (JVal.obj [])) "ethnicity_codes".toList (JVal.arr [])) =
      ([] : List JVal) := rfl
  rw [hrace, heth]
  have hg : jGetD (jGetD (processedPatientJson fname ⟨pid, bd, g?, rc, ec⟩ events)
      "demographics".toList (JVal.obj [])) "gender".toList JVal.null = optStrJ g? := rfl
  rw [hg]
  simp only [List.map_nil, List.nil_append, List.append_nil]
  cases g? with
  | none => rfl
  | some g =>
    by_cases hgn : g = []
    · subst hgn
      rfl
    · rw [truthyStr_of_ne hgn]
      simp only [optStrJ]
      rw [if_pos]
      show jTruthy (JVal.str g) = true
      rw [jTruthy]
      exact decide_eq_true hgn

end Fhir
